import Mathlib

/-!
Verification development for the keyword-based intent-recognition node
(`src/nodes/IntentRecognition/IntentRecognition.node.ts`, second node variant:
`configuredOutputs` at lines 382-402 and `execute` at lines 670-843).

The TypeScript is shallowly embedded: JS strings are Lean `String`s operated
on through explicit structural functions over their character lists (so that
the kernel can evaluate them), JS numbers are exact rationals `ℚ` (JS float
rounding is not exercised by any statement here), JS objects are ordered
association lists with unique keys, and the `execute` routine is a pure
function from a configuration, a continue-on-fail flag, a timestamp string
and the input items to either an error (a thrown `NodeOperationError`) or
the list of output channels.
-/

/-! ## Character-list string primitives (JS semantics, kernel-computable) -/

/-- Drop leading whitespace characters, as `String.prototype.trim` does on
the left. -/
def dropLeadingWs : List Char → List Char
  | [] => []
  | c :: rest => if c.isWhitespace then dropLeadingWs rest else c :: rest

/-- Both-sided whitespace trim on character lists. -/
def trimChars (l : List Char) : List Char :=
  ((dropLeadingWs ((dropLeadingWs l.reverse).reverse)))

/-- JS `String.prototype.trim`. -/
def jsTrim (s : String) : String := String.mk (trimChars s.data)

/-- Split a character list at every occurrence of `sep`; the accumulator
holds the current (reversed) segment.  Mirrors JS `split` in that an empty
input yields one empty segment and separators at the ends yield empty
segments. -/
def splitChars (sep : Char) : List Char → List Char → List (List Char)
  | [], acc => [acc.reverse]
  | c :: rest, acc =>
    if c = sep then acc.reverse :: splitChars sep rest []
    else splitChars sep rest (c :: acc)

/-- JS `keywords.split(',')`. -/
def jsSplitComma (s : String) : List String :=
  (splitChars ',' s.data []).map String.mk

/-- Is `pat` a prefix of the second list? -/
def isPrefixCh : List Char → List Char → Bool
  | [], _ => true
  | _ :: _, [] => false
  | a :: as, b :: bs => a = b && isPrefixCh as bs

/-- Is `pat` a contiguous sublist of the second list? -/
def isInfixCh (pat : List Char) : List Char → Bool
  | [] => isPrefixCh pat []
  | c :: rest => isPrefixCh pat (c :: rest) || isInfixCh pat rest

/-- JS `s.includes(pat)`: substring containment. The empty pattern is
contained in every string, exactly as in JS. -/
def jsIncludes (s pat : String) : Bool := isInfixCh pat.data s.data

/-- JS `String.prototype.toLowerCase`, restricted to the ASCII case fold
performed by `Char.toLower`; the source is only ever exercised on ASCII
configuration strings and message text in this development. -/
def jsToLower (s : String) : String := String.mk (s.data.map Char.toLower)

/-- JS `s.substring(0, n)` (the source truncates the analysed text to 200
and error messages to 100 characters).  Counted in characters rather than
UTF-16 code units; they agree on the inputs exercised here. -/
def jsTake (s : String) (n : Nat) : String := String.mk (s.data.take n)

/-- Decimal digits of a natural number, with structural fuel so the kernel
can evaluate it. -/
def natDigits : Nat → Nat → List Char
  | 0, _ => []
  | _ + 1, n =>
    if n < 10 then [Char.ofNat (48 + n)]
    else natDigits n (n / 10) ++ [Char.ofNat (48 + n % 10)]

/-- Decimal rendering of an integer. -/
def intToString (i : Int) : String :=
  match i with
  | .ofNat n => if n = 0 then "0" else String.mk (natDigits (n + 1) n)
  | .negSucc n => String.mk ('-' :: natDigits (n + 2) (n + 1))

/-! ## JS values and objects -/

/-- A JS/JSON value as the node manipulates it.  `num` carries an exact
rational standing for the JS double; no statement in this file depends on
float rounding. -/
inductive JsonValue where
  | null
  | bool (b : Bool)
  | num (q : ℚ)
  | str (s : String)
  | obj (fields : List (String × JsonValue))
deriving BEq

/-- A JS object: an insertion-ordered association list with unique keys
(the uniqueness that real JS objects maintain is preserved by `objSet`). -/
abbrev Obj := List (String × JsonValue)

/-- Field read, first occurrence (JS objects keep keys unique, so first =
only). -/
def objLookup (obj : Obj) (k : String) : Option JsonValue :=
  match obj with
  | [] => none
  | (k2, v) :: rest => if k2 = k then some v else objLookup rest k

/-- JS property assignment `o[k] = v`: overwrite in place when the key
exists (keeping its position, as JS insertion order does), otherwise append
at the end. -/
def objSet (obj : Obj) (k : String) (v : JsonValue) : Obj :=
  match obj with
  | [] => [(k, v)]
  | (k2, v2) :: rest => if k2 = k then (k2, v) :: rest else (k2, v2) :: objSet rest k v

/-- JS object spread `{...base, k1: v1, ..., kn: vn}`: assign the literal
pairs left to right on top of `base`. -/
def jsSpread (base : Obj) : List (String × JsonValue) → Obj
  | [] => base
  | (k, v) :: rest => jsSpread (objSet base k v) rest

/-- JS truthiness of a value, as used by `if (item.json[inputField])` and
`if (intent.keywords)`: empty strings, zero, `false` and `null` are falsy.
(JS objects are always truthy.) -/
def JsonValue.truthy : JsonValue → Bool
  | .null => false
  | .bool b => b
  | .num q => q ≠ 0
  | .str s => s ≠ ""
  | .obj _ => true

/-- Escape of one character inside a JSON string literal (quote and
backslash; control characters do not occur in this development). -/
def jsonEscapeChar (c : Char) : String :=
  if c = '\\' then "\\\\" else if c = '"' then "\\\"" else String.mk [c]

/-- A JSON string literal. -/
def jsonQuote (s : String) : String :=
  "\"" ++ String.join (s.data.map jsonEscapeChar) ++ "\""

/-- JS `String(q)` / `JSON.stringify(q)` for a number.  Faithful to JS for
integral values (the only ones any statement here evaluates); non-integral
rationals are rendered as `num/den`, standing in for JS decimal float
formatting. -/
def numToString (q : ℚ) : String :=
  if q.den = 1 then intToString q.num
  else intToString q.num ++ "/" ++ intToString (q.den : Int)

mutual

/-- The `JSON.stringify` rendering of a value. -/
def JsonValue.stringify : JsonValue → String
  | .null => "null"
  | .bool b => if b then "true" else "false"
  | .num q => numToString q
  | .str s => jsonQuote s
  | .obj fs => "\x7b" ++ stringifyFields fs ++ "\x7d"

/-- The `JSON.stringify` rendering of an object body, comma-separated. -/
def stringifyFields : List (String × JsonValue) → String
  | [] => ""
  | [(k, v)] => jsonQuote k ++ ":" ++ JsonValue.stringify v
  | (k, v) :: p :: rest =>
    jsonQuote k ++ ":" ++ JsonValue.stringify v ++ "," ++ stringifyFields (p :: rest)

end

/-- JS `String(v)` coercion, used on the designated input field. -/
def JsonValue.jsToString : JsonValue → String
  | .null => "null"
  | .bool b => if b then "true" else "false"
  | .num q => numToString q
  | .str s => s
  | .obj _ => "[object Object]"

/-! ## Configuration data model

Mirrors the node parameters consumed by `execute` (lines 670-691): the
`intentsList.intentOptions` collection, `fallbackBehavior`, and the
`options` collection with its defaults already applied
(`caseSensitive = false`, `confidenceThreshold = 0.5`,
`inputField = "message"`). -/

/-- One entry of an intent's `parameters.parameterOptions` collection. -/
structure ParameterOption where
  key : String
  ptype : String
  required : Bool
  defaultValue : String
deriving BEq

/-- One entry of `intentsList.intentOptions`.  `keywords` is `none` when the
property is absent; the source guards on its JS truthiness so `none` and
`some ""` behave identically. -/
structure IntentOption where
  key : String
  description : String
  keywords : Option String
  parameterOptions : List ParameterOption
deriving BEq

/-- The configuration snapshot `execute` reads once per batch. -/
structure Config where
  intentsList : List IntentOption
  fallbackBehavior : String
  caseSensitive : Bool
  confidenceThreshold : ℚ
  inputField : String

/-! ## Keyword classifier (`execute` lines 708-760) -/

/-- The JS truthiness guard `if (intent.keywords)`. -/
def keywordGuard (intent : IntentOption) : Bool :=
  match intent.keywords with
  | some s => s ≠ ""
  | none => false

/-- Tokenization `intent.keywords.split(',').map(k => k.trim())` — comma-split then
trimmed, with empty tokens retained (the source performs no filtering). -/
def intentTokens (intent : IntentOption) : List String :=
  match intent.keywords with
  | some s => (jsSplitComma s).map jsTrim
  | none => []

/-- The searched keyword `caseSensitive ? keyword : keyword.toLowerCase()`. -/
def searchKeyword (caseSensitive : Bool) (k : String) : String :=
  if caseSensitive then k else jsToLower k

/-- The `keywordMatches` filter: tokens found as substrings of the
(already case-normalized) text. -/
def keywordMatches (caseSensitive : Bool) (text : String) (tokens : List String) : List String :=
  tokens.filter (fun k => jsIncludes text (searchKeyword caseSensitive k))

/-- Matched tokens of one intent. -/
def intentMatches (caseSensitive : Bool) (text : String) (intent : IntentOption) : List String :=
  keywordMatches caseSensitive text (intentTokens intent)

/-- Per-intent confidence, `keywordMatches.length / keywords.length`
(0 for an intent whose keyword property is absent, where the token list is
empty and rational division by zero yields 0). -/
def intentConfidence (caseSensitive : Bool) (text : String) (intent : IntentOption) : ℚ :=
  ((intentMatches caseSensitive text intent).length : ℚ) / ((intentTokens intent).length : ℚ)

/-- Does the intent pass the `intent.keywords` truthiness guard and the
`keywordMatches.length > 0` test? -/
def hasAnyMatch (caseSensitive : Bool) (text : String) (intent : IntentOption) : Bool :=
  keywordGuard intent && decide (0 < (intentMatches caseSensitive text intent).length)

/-- Would the loop select this intent: guard passes, at least one keyword
matches, and the confidence clears the threshold. -/
def selectable (caseSensitive : Bool) (threshold : ℚ) (text : String) (intent : IntentOption) : Bool :=
  hasAnyMatch caseSensitive text intent && decide (threshold ≤ intentConfidence caseSensitive text intent)

/-- Parameter extraction for the matched intent (lines 744-755): a record
field with the parameter's exact name wins, else a truthy (non-empty)
`defaultValue`, else — required or not — nothing is written.  Total: no
error path exists. -/
def extractParameters (json : Obj) : List ParameterOption → Obj → Obj
  | [], acc => acc
  | p :: rest, acc =>
    match objLookup json p.key with
    | some v => extractParameters json rest (objSet acc p.key v)
    | none =>
      if p.defaultValue ≠ "" then extractParameters json rest (objSet acc p.key (.str p.defaultValue))
      else extractParameters json rest acc

/-- Outcome of the recognition loop: the four loop-local variables
`recognizedIntentIndex` (−1 modeled as `none`), `recognizedIntentKey`,
`extractedParameters` and `confidence` at loop exit. -/
structure ClassResult where
  idx : Option Nat
  key : Option String
  params : Obj
  confidence : ℚ

/-- The `for (let intentIndex = 0; ...)` recognition loop (lines 726-760),
carrying the running index and the reused `confidence` variable.
`confidence` is reassigned only when an intent passes the keywords guard
and has at least one match; selection additionally requires the threshold,
and `break` is modeled by returning without visiting the remaining
intents. -/
def classifyLoop (caseSensitive : Bool) (threshold : ℚ) (text : String) (json : Obj) :
    List IntentOption → Nat → ℚ → ClassResult
  | [], _, conf => ⟨none, none, [], conf⟩
  | intent :: rest, i, conf =>
    if keywordGuard intent then
      let found := intentMatches caseSensitive text intent
      if 0 < found.length then
        let conf2 : ℚ := (found.length : ℚ) / ((intentTokens intent).length : ℚ)
        if threshold ≤ conf2 then
          ⟨some i, some intent.key, extractParameters json intent.parameterOptions [], conf2⟩
        else classifyLoop caseSensitive threshold text json rest (i + 1) conf2
      else classifyLoop caseSensitive threshold text json rest (i + 1) conf
    else classifyLoop caseSensitive threshold text json rest (i + 1) conf

/-- The classifier over a whole intent list, starting from index 0 with the
`confidence` variable initialized to 0 (line 723). -/
def classify (caseSensitive : Bool) (threshold : ℚ) (text : String) (json : Obj)
    (intents : List IntentOption) : ClassResult :=
  classifyLoop caseSensitive threshold text json intents 0 0

/-- The reused `confidence` variable's value when the loop falls through
with no selection: the per-intent confidence of the last intent that
passed the keywords guard with at least one match, and the initial 0 when
no intent ever assigned it. -/
def fallthroughConfidence (caseSensitive : Bool) (text : String)
    (intents : List IntentOption) : ℚ :=
  match (intents.filter (hasAnyMatch caseSensitive text)).getLast? with
  | some intent => intentConfidence caseSensitive text intent
  | none => 0

/-! ## Output topology and router (`configuredOutputs` lines 382-402,
`execute` lines 693-843) -/

/-- One output descriptor produced by `configuredOutputs`. -/
structure OutputDescriptor where
  channelType : String
  displayName : String
deriving BEq

/-- The `configuredOutputs` function (lines 382-402): one output per intent named by its
key (or `Intent ⟨i+1⟩` when the key is the empty string, which is falsy in
JS), a `Fallback` output appended only under `route_to_fallback`, and a
single `Main` output when the list would otherwise be empty.  Total — it
contains no validation and can not fail. -/
def configuredOutputs (intentsList : List IntentOption) (fallbackBehavior : String) :
    List OutputDescriptor :=
  let outputs := intentsList.enum.map (fun p =>
    ⟨"main", if p.2.key ≠ "" then p.2.key else "Intent " ++ intToString ((p.1 : Int) + 1)⟩)
  let outputs := if fallbackBehavior = "route_to_fallback"
    then outputs ++ [⟨"main", "Fallback"⟩] else outputs
  if 0 < outputs.length then outputs else [⟨"main", "Main"⟩]

/-- The channel count `totalOutputs = numIntents + (hasFallback ? 1 : 0)` (line 697). -/
def totalOutputsOf (cfg : Config) : Nat :=
  cfg.intentsList.length + (if cfg.fallbackBehavior = "route_to_fallback" then 1 else 0)

/-- Lines 709-714: the text to analyse is the designated input field when
that field holds a JS-truthy value (`if (item.json[inputField])`), coerced
with `String(...)`; otherwise — absent field or present-but-falsy value —
the JSON serialization of the whole record. -/
def textToAnalyze (inputField : String) (json : Obj) : String :=
  match objLookup json inputField with
  | some v => if v.truthy then v.jsToString else JsonValue.stringify (.obj json)
  | none => JsonValue.stringify (.obj json)

/-- Lines 716-718: lower-case the text unless `caseSensitive`. -/
def normalizedText (cfg : Config) (json : Obj) : String :=
  let t := textToAnalyze cfg.inputField json
  if cfg.caseSensitive then t else jsToLower t

/-- The classifier as invoked per item by `execute`. -/
def classifyItem (cfg : Config) (json : Obj) : ClassResult :=
  classify cfg.caseSensitive cfg.confidenceThreshold (normalizedText cfg json) json cfg.intentsList

/-- The enriched record of lines 790-800: the original fields spread first,
then `recognizedIntent`, `extractedParameters` and the `intentMetadata`
block (confidence, timestamp, text truncated to 200). -/
def enrich (json : Obj) (r : ClassResult) (text now : String) : Obj :=
  jsSpread json
    [("recognizedIntent", match r.key with | some k => .str k | none => .null),
     ("extractedParameters", .obj r.params),
     ("intentMetadata", .obj
       [("confidence", .num r.confidence),
        ("processingTime", .str now),
        ("inputText", .str (jsTake text 200))])]

/-- The `NodeOperationError` message thrown at lines 775-779. -/
def noMatchMsg (text : String) : String :=
  "No intent recognized for input: " ++ jsTake text 100 ++ "..."

/-- The error-annotated record built under `continueOnFail` (lines
816-829): original fields, an `error` message, nulled intent fields and an
error metadata block. -/
def errorRecord (json : Obj) (msg now : String) : Obj :=
  jsSpread json
    [("error", .str msg),
     ("recognizedIntent", .null),
     ("extractedParameters", .obj []),
     ("intentMetadata", .obj
       [("confidence", .num 0),
        ("processingTime", .str now),
        ("error", .bool true)])]

/-- What the loop body does with one item before touching the output
arrays: append a record to a channel, silently skip it (`continue
itemLoop`), or throw. -/
inductive ItemOutcome where
  | route (idx : Nat) (record : Obj)
  | skip
  | fail (msg : String)

/-- The per-item routing decision of lines 703-810: a recognized intent
routes to its own index; otherwise `route_to_fallback` routes to the last
index, `discard` skips the item, `error` throws, and any other value of
`fallbackBehavior` re-tests `hasFallback` (necessarily false there) and
skips. -/
def processItem (cfg : Config) (totalOutputs : Nat) (now : String) (json : Obj) : ItemOutcome :=
  let text := normalizedText cfg json
  let r := classifyItem cfg json
  match r.idx with
  | some i => .route i (enrich json r text now)
  | none =>
    if cfg.fallbackBehavior = "route_to_fallback" then
      .route (totalOutputs - 1) (enrich json r text now)
    else if cfg.fallbackBehavior = "discard" then .skip
    else if cfg.fallbackBehavior = "error" then .fail (noMatchMsg text)
    else if cfg.fallbackBehavior = "route_to_fallback" then
      .route (totalOutputs - 1) (enrich json r text now)
    else .skip

/-- The push `returnData[idx].push(r)`: in range, append to the addressed channel;
out of range, JS dereferences `undefined` and the batch dies with a
`TypeError`. -/
def pushAt (channels : List (List Obj)) (idx : Nat) (r : Obj) : Option (List (List Obj)) :=
  if idx < channels.length then some (channels.set idx (channels.getD idx [] ++ [r]))
  else none

/-- The batch loop of lines 703-840 over the remaining items, carrying the
output accumulator.  A thrown error is converted to an error record on the
fallback channel (or channel 0 without a fallback) under `continueOnFail`,
and aborts the batch otherwise. -/
def executeLoop (cfg : Config) (continueOnFail : Bool) (now : String) (totalOutputs : Nat) :
    List Obj → List (List Obj) → Except String (List (List Obj))
  | [], acc => .ok acc
  | json :: rest, acc =>
    match processItem cfg totalOutputs now json with
    | .route idx r =>
      match pushAt acc idx r with
      | some acc2 => executeLoop cfg continueOnFail now totalOutputs rest acc2
      | none => .error "TypeError: undefined output channel"
    | .skip => executeLoop cfg continueOnFail now totalOutputs rest acc
    | .fail msg =>
      if continueOnFail then
        let errorOutputIndex :=
          if cfg.fallbackBehavior = "route_to_fallback" then totalOutputs - 1 else 0
        match pushAt acc errorOutputIndex (errorRecord json msg now) with
        | some acc2 => executeLoop cfg continueOnFail now totalOutputs rest acc2
        | none => .error "TypeError: undefined output channel"
      else .error msg

/-- The whole `execute` routine (lines 670-843): initialize one growable
array per output, process every item in order, and return the channels —
normalized to a single empty channel when there are none
(`returnData.length ? returnData : [[]]`, line 842). -/
def execute (cfg : Config) (continueOnFail : Bool) (now : String) (items : List Obj) :
    Except String (List (List Obj)) :=
  match executeLoop cfg continueOnFail now (totalOutputsOf cfg) items
      (List.replicate (totalOutputsOf cfg) []) with
  | .ok acc => .ok (if 0 < acc.length then acc else [[]])
  | .error e => .error e

/-! ## Object lemmas -/

theorem objLookup_objSet_self (o : Obj) (k : String) (v : JsonValue) :
    objLookup (objSet o k v) k = some v := by
  induction o with
  | nil => simp [objSet, objLookup]
  | cons p rest ih =>
    obtain ⟨k2, v2⟩ := p
    simp only [objSet]
    by_cases h : k2 = k
    · rw [if_pos h]; simp only [objLookup]; rw [if_pos h]
    · rw [if_neg h]; simp only [objLookup]; rw [if_neg h]; exact ih

theorem objLookup_objSet_ne (o : Obj) (k k2 : String) (v : JsonValue) (h : k2 ≠ k) :
    objLookup (objSet o k v) k2 = objLookup o k2 := by
  induction o with
  | nil =>
    simp only [objSet, objLookup]
    rw [if_neg (fun hk : k = k2 => h hk.symm)]
  | cons p rest ih =>
    obtain ⟨k3, v3⟩ := p
    simp only [objSet]
    by_cases h3 : k3 = k
    · rw [if_pos h3]
      have hne : k3 ≠ k2 := by rw [h3]; exact fun hk => h hk.symm
      simp only [objLookup]
      rw [if_neg hne, if_neg hne]
    · rw [if_neg h3]
      simp only [objLookup]
      by_cases h2 : k3 = k2
      · rw [if_pos h2, if_pos h2]
      · rw [if_neg h2, if_neg h2, ih]

/-- The enriched record reads back the `recognizedIntent` enrichment
field, string for a match and null otherwise. -/
theorem objLookup_enrich_recognizedIntent (json : Obj) (r : ClassResult) (text now : String) :
    objLookup (enrich json r text now) "recognizedIntent" =
      some (match r.key with | some k => .str k | none => .null) := by
  simp only [enrich, jsSpread]
  rw [objLookup_objSet_ne _ _ _ _ (by decide), objLookup_objSet_ne _ _ _ _ (by decide),
    objLookup_objSet_self]

/-- Any field other than the three enrichment names reads back unchanged
from the enriched record. -/
theorem objLookup_enrich_of_ne (json : Obj) (r : ClassResult) (text now : String) (k : String)
    (h1 : k ≠ "recognizedIntent") (h2 : k ≠ "extractedParameters")
    (h3 : k ≠ "intentMetadata") :
    objLookup (enrich json r text now) k = objLookup json k := by
  simp only [enrich, jsSpread]
  rw [objLookup_objSet_ne _ _ _ _ h3, objLookup_objSet_ne _ _ _ _ h2,
    objLookup_objSet_ne _ _ _ _ h1]

/-- Any field other than the four error-annotation names reads back
unchanged from the error record. -/
theorem objLookup_errorRecord_of_ne (json : Obj) (msg now k : String)
    (h0 : k ≠ "error") (h1 : k ≠ "recognizedIntent") (h2 : k ≠ "extractedParameters")
    (h3 : k ≠ "intentMetadata") :
    objLookup (errorRecord json msg now) k = objLookup json k := by
  simp only [errorRecord, jsSpread]
  rw [objLookup_objSet_ne _ _ _ _ h3, objLookup_objSet_ne _ _ _ _ h2,
    objLookup_objSet_ne _ _ _ _ h1, objLookup_objSet_ne _ _ _ _ h0]

/-- The error record carries the thrown message in its `error` field. -/
theorem objLookup_errorRecord_error (json : Obj) (msg now : String) :
    objLookup (errorRecord json msg now) "error" = some (.str msg) := by
  simp only [errorRecord, jsSpread]
  rw [objLookup_objSet_ne _ _ _ _ (by decide), objLookup_objSet_ne _ _ _ _ (by decide),
    objLookup_objSet_ne _ _ _ _ (by decide), objLookup_objSet_self]

/-- The error record nulls the `recognizedIntent` field. -/
theorem objLookup_errorRecord_recognizedIntent (json : Obj) (msg now : String) :
    objLookup (errorRecord json msg now) "recognizedIntent" = some .null := by
  simp only [errorRecord, jsSpread]
  rw [objLookup_objSet_ne _ _ _ _ (by decide), objLookup_objSet_ne _ _ _ _ (by decide),
    objLookup_objSet_self]

/-- The error record empties the `extractedParameters` field. -/
theorem objLookup_errorRecord_extractedParameters (json : Obj) (msg now : String) :
    objLookup (errorRecord json msg now) "extractedParameters" = some (.obj []) := by
  simp only [errorRecord, jsSpread]
  rw [objLookup_objSet_ne _ _ _ _ (by decide), objLookup_objSet_self]

/-! ## Classifier characterization lemmas -/


theorem getLastQ_cons {α : Type} (a : α) (l : List α) :
    (a :: l).getLast? = some (match l.getLast? with | some x => x | none => a) := by
  induction l generalizing a with
  | nil => rfl
  | cons b t ih => rw [List.getLast?_cons_cons, ih b]

/-- One non-selecting step of the loop: guard fails. -/
theorem classifyLoop_step_noguard (cs : Bool) (th : ℚ) (text : String) (json : Obj)
    (it0 : IntentOption) (rest : List IntentOption) (i : Nat) (conf : ℚ)
    (hg : ¬ keywordGuard it0 = true) :
    classifyLoop cs th text json (it0 :: rest) i conf =
      classifyLoop cs th text json rest (i + 1) conf := by
  simp [classifyLoop, hg]

/-- One non-selecting step: guard passes, no keyword matches. -/
theorem classifyLoop_step_nomatch (cs : Bool) (th : ℚ) (text : String) (json : Obj)
    (it0 : IntentOption) (rest : List IntentOption) (i : Nat) (conf : ℚ)
    (hg : keywordGuard it0 = true) (hm : ¬ 0 < (intentMatches cs text it0).length) :
    classifyLoop cs th text json (it0 :: rest) i conf =
      classifyLoop cs th text json rest (i + 1) conf := by
  simp [classifyLoop, hg, hm]

/-- One non-selecting step: matches exist but the threshold fails; the
`confidence` variable is overwritten. -/
theorem classifyLoop_step_lowconf (cs : Bool) (th : ℚ) (text : String) (json : Obj)
    (it0 : IntentOption) (rest : List IntentOption) (i : Nat) (conf : ℚ)
    (hg : keywordGuard it0 = true) (hm : 0 < (intentMatches cs text it0).length)
    (hth : ¬ th ≤ intentConfidence cs text it0) :
    classifyLoop cs th text json (it0 :: rest) i conf =
      classifyLoop cs th text json rest (i + 1) (intentConfidence cs text it0) := by
  simp only [intentConfidence] at hth
  simp [classifyLoop, hg, hm, hth]
  rfl

/-- The selecting step. -/
theorem classifyLoop_step_select (cs : Bool) (th : ℚ) (text : String) (json : Obj)
    (it0 : IntentOption) (rest : List IntentOption) (i : Nat) (conf : ℚ)
    (hg : keywordGuard it0 = true) (hm : 0 < (intentMatches cs text it0).length)
    (hth : th ≤ intentConfidence cs text it0) :
    classifyLoop cs th text json (it0 :: rest) i conf =
      ⟨some i, some it0.key, extractParameters json it0.parameterOptions [],
        intentConfidence cs text it0⟩ := by
  simp only [intentConfidence] at hth
  simp [classifyLoop, hg, hm, hth]
  rfl

/-- Falling through the whole loop: when no intent is selectable the loop
returns index −1 (`none`), no key, empty parameters, and the `confidence`
variable holds the confidence of the last intent that assigned it. -/
theorem classifyLoop_none (cs : Bool) (th : ℚ) (text : String) (json : Obj) :
    ∀ (L : List IntentOption) (i : Nat) (conf : ℚ),
      (∀ it ∈ L, selectable cs th text it = false) →
      classifyLoop cs th text json L i conf =
        ⟨none, none, [],
          match (L.filter (hasAnyMatch cs text)).getLast? with
          | some it => intentConfidence cs text it
          | none => conf⟩ := by
  intro L
  induction L with
  | nil => intro i conf _; rfl
  | cons it0 rest ih =>
    intro i conf hsel
    have hrest : ∀ it ∈ rest, selectable cs th text it = false :=
      fun it hit => hsel it (List.mem_cons_of_mem _ hit)
    have h0 : selectable cs th text it0 = false := hsel it0 (List.mem_cons_self _ _)
    by_cases hg : keywordGuard it0 = true
    · by_cases hm : 0 < (intentMatches cs text it0).length
      · have hany : hasAnyMatch cs text it0 = true := by
          simp only [hasAnyMatch, hg, Bool.true_and, decide_eq_true_eq]
          exact hm
        have hth : ¬ th ≤ intentConfidence cs text it0 := by
          intro hle
          have hcontra : selectable cs th text it0 = true := by simp [selectable, hany, hle]
          rw [hcontra] at h0
          cases h0
        rw [classifyLoop_step_lowconf cs th text json it0 rest i conf hg hm hth,
          ih (i + 1) _ hrest]
        congr 1
        rw [List.filter_cons_of_pos hany, getLastQ_cons]
        cases hl : (rest.filter (hasAnyMatch cs text)).getLast? <;> simp [hl]
      · have hany : hasAnyMatch cs text it0 = false := by simp [hasAnyMatch, hm]
        rw [classifyLoop_step_nomatch cs th text json it0 rest i conf hg hm,
          ih (i + 1) conf hrest]
        congr 1
        rw [List.filter_cons_of_neg (by simp [hany])]
    · have hany : hasAnyMatch cs text it0 = false := by simp [hasAnyMatch, hg]
      rw [classifyLoop_step_noguard cs th text json it0 rest i conf hg,
        ih (i + 1) conf hrest]
      congr 1
      rw [List.filter_cons_of_neg (by simp [hany])]

/-- Unpack the selection predicate into the three loop conditions. -/
theorem selectable_elim (cs : Bool) (th : ℚ) (text : String) (it : IntentOption)
    (h : selectable cs th text it = true) :
    keywordGuard it = true ∧ 0 < (intentMatches cs text it).length ∧
      th ≤ intentConfidence cs text it := by
  simp only [selectable, hasAnyMatch, Bool.and_eq_true, decide_eq_true_eq] at h
  exact ⟨h.1.1, h.1.2, h.2⟩

/-- First-match-wins with short-circuit: whatever follows the first
selectable intent, the loop selects exactly that intent. -/
theorem classifyLoop_first (cs : Bool) (th : ℚ) (text : String) (json : Obj)
    (it : IntentOption) (hsel : selectable cs th text it = true) :
    ∀ (l1 l2 : List IntentOption) (i : Nat) (conf : ℚ),
      (∀ x ∈ l1, selectable cs th text x = false) →
      classifyLoop cs th text json (l1 ++ it :: l2) i conf =
        ⟨some (i + l1.length), some it.key,
          extractParameters json it.parameterOptions [], intentConfidence cs text it⟩ := by
  intro l1
  induction l1 with
  | nil =>
    intro l2 i conf _
    obtain ⟨hg, hm, hth⟩ := selectable_elim cs th text it hsel
    rw [List.nil_append, classifyLoop_step_select cs th text json it l2 i conf hg hm hth]
    simp
  | cons x l1' ih =>
    intro l2 i conf hns
    have hx : selectable cs th text x = false := hns x (List.mem_cons_self _ _)
    have hl1' : ∀ y ∈ l1', selectable cs th text y = false :=
      fun y hy => hns y (List.mem_cons_of_mem _ hy)
    have hlen : i + 1 + l1'.length = i + (x :: l1').length := by
      simp [List.length_cons]; omega
    rw [List.cons_append]
    by_cases hg : keywordGuard x = true
    · by_cases hm : 0 < (intentMatches cs text x).length
      · have hth : ¬ th ≤ intentConfidence cs text x := by
          intro hle
          have hcontra : selectable cs th text x = true := by
            simp only [selectable, hasAnyMatch, hg, Bool.true_and, Bool.and_eq_true,
              decide_eq_true_eq]
            exact ⟨hm, hle⟩
          rw [hcontra] at hx; cases hx
        rw [classifyLoop_step_lowconf cs th text json x (l1' ++ it :: l2) i conf hg hm hth,
          ih l2 (i + 1) _ hl1', hlen]
      · rw [classifyLoop_step_nomatch cs th text json x (l1' ++ it :: l2) i conf hg hm,
          ih l2 (i + 1) conf hl1', hlen]
    · rw [classifyLoop_step_noguard cs th text json x (l1' ++ it :: l2) i conf hg,
        ih l2 (i + 1) conf hl1', hlen]

/-- Whenever the loop reports a selected index, that index addresses an
intent of the list that is selectable, and the whole result is that
intent's selection record. -/
theorem classifyLoop_idx_some (cs : Bool) (th : ℚ) (text : String) (json : Obj) :
    ∀ (L : List IntentOption) (i : Nat) (conf : ℚ) (j : Nat),
      (classifyLoop cs th text json L i conf).idx = some j →
      ∃ (k : Nat) (hk : k < L.length), j = i + k ∧
        selectable cs th text (L.get ⟨k, hk⟩) = true ∧
        classifyLoop cs th text json L i conf =
          ⟨some j, some (L.get ⟨k, hk⟩).key,
            extractParameters json (L.get ⟨k, hk⟩).parameterOptions [],
            intentConfidence cs text (L.get ⟨k, hk⟩)⟩ := by
  intro L
  induction L with
  | nil =>
    intro i conf j h
    exact absurd h (by simp [classifyLoop])
  | cons it0 rest ih =>
    intro i conf j h
    by_cases hg : keywordGuard it0 = true
    · by_cases hm : 0 < (intentMatches cs text it0).length
      · by_cases hth : th ≤ intentConfidence cs text it0
        · rw [classifyLoop_step_select cs th text json it0 rest i conf hg hm hth] at h ⊢
          have hij : i = j := by simpa using h
          refine ⟨0, by simp, by omega, ?_, ?_⟩
          · simp only [List.get]
            simp only [selectable, hasAnyMatch, hg, Bool.true_and, Bool.and_eq_true,
              decide_eq_true_eq]
            exact ⟨hm, hth⟩
          · rw [hij]; rfl
        · rw [classifyLoop_step_lowconf cs th text json it0 rest i conf hg hm hth] at h ⊢
          obtain ⟨k, hk, hj, hsel2, heq⟩ := ih (i + 1) _ j h
          refine ⟨k + 1, Nat.succ_lt_succ hk, by omega, ?_, ?_⟩
          · simpa [List.get] using hsel2
          · simpa [List.get] using heq
      · rw [classifyLoop_step_nomatch cs th text json it0 rest i conf hg hm] at h ⊢
        obtain ⟨k, hk, hj, hsel2, heq⟩ := ih (i + 1) conf j h
        refine ⟨k + 1, Nat.succ_lt_succ hk, by omega, ?_, ?_⟩
        · simpa [List.get] using hsel2
        · simpa [List.get] using heq
    · rw [classifyLoop_step_noguard cs th text json it0 rest i conf hg] at h ⊢
      obtain ⟨k, hk, hj, hsel2, heq⟩ := ih (i + 1) conf j h
      refine ⟨k + 1, Nat.succ_lt_succ hk, by omega, ?_, ?_⟩
      · simpa [List.get] using hsel2
      · simpa [List.get] using heq

/-- Behavior of `classify` when no intent is selectable: no index, no key, no
parameters, and the fall-through confidence artifact. -/
theorem classify_of_none (cs : Bool) (th : ℚ) (text : String) (json : Obj)
    (L : List IntentOption) (h : ∀ it ∈ L, selectable cs th text it = false) :
    classify cs th text json L = ⟨none, none, [], fallthroughConfidence cs text L⟩ := by
  rw [classify, classifyLoop_none cs th text json L 0 0 h]
  rfl

/-- Behavior of `classify` around the first selectable intent. -/
theorem classify_first (cs : Bool) (th : ℚ) (text : String) (json : Obj)
    (l1 : List IntentOption) (it : IntentOption) (l2 : List IntentOption)
    (hsel : selectable cs th text it = true)
    (hns : ∀ x ∈ l1, selectable cs th text x = false) :
    classify cs th text json (l1 ++ it :: l2) =
      ⟨some l1.length, some it.key,
        extractParameters json it.parameterOptions [], intentConfidence cs text it⟩ := by
  rw [classify, classifyLoop_first cs th text json it hsel l1 l2 0 0 hns]
  simp

/-- A selected index addresses a selectable intent, and determines the
whole classifier result. -/
theorem classify_idx_some (cs : Bool) (th : ℚ) (text : String) (json : Obj)
    (L : List IntentOption) (j : Nat)
    (h : (classify cs th text json L).idx = some j) :
    ∃ hj : j < L.length,
      selectable cs th text (L.get ⟨j, hj⟩) = true ∧
      classify cs th text json L =
        ⟨some j, some (L.get ⟨j, hj⟩).key,
          extractParameters json (L.get ⟨j, hj⟩).parameterOptions [],
          intentConfidence cs text (L.get ⟨j, hj⟩)⟩ := by
  rw [classify] at h
  obtain ⟨k, hk, hj0, hsel, heq⟩ := classifyLoop_idx_some cs th text json L 0 0 j h
  have hkj : k = j := by omega
  subst hkj
  exact ⟨hk, hsel, heq⟩

/-! ## Channel-array lemmas -/

theorem getD_set_self2 {α : Type} (dflt a : α) :
    ∀ (l : List α) (i : Nat), i < l.length → (l.set i a).getD i dflt = a := by
  intro l
  induction l with
  | nil => intro i h; cases h
  | cons b t ih =>
    intro i h
    cases i with
    | zero => rfl
    | succ n => exact ih n (Nat.lt_of_succ_lt_succ h)

theorem getD_set_ne {α : Type} (dflt a : α) :
    ∀ (l : List α) (i j : Nat), i ≠ j → (l.set i a).getD j dflt = l.getD j dflt := by
  intro l
  induction l with
  | nil => intro i j _; simp [List.set]
  | cons b t ih =>
    intro i j hne
    cases i with
    | zero =>
      cases j with
      | zero => exact absurd rfl hne
      | succ m => rfl
    | succ n =>
      cases j with
      | zero => rfl
      | succ m => exact ih n m (fun hh => hne (hh ▸ rfl))

theorem sum_lengths_set (r : Obj) :
    ∀ (l : List (List Obj)) (i : Nat), i < l.length →
      ((l.set i ((l.getD i []) ++ [r])).map List.length).sum =
        ((l.map List.length).sum) + 1 := by
  intro l
  induction l with
  | nil => intro i h; cases h
  | cons c t ih =>
    intro i h
    cases i with
    | zero => simp [List.set, List.getD]; omega
    | succ n =>
      have := ih n (Nat.lt_of_succ_lt_succ h)
      simp only [List.set, List.map_cons, List.sum_cons, List.getD_cons_succ]
      rw [this]
      omega

theorem pushAt_eq_some (acc : List (List Obj)) (idx : Nat) (r : Obj)
    (h : idx < acc.length) :
    pushAt acc idx r = some (acc.set idx (acc.getD idx [] ++ [r])) := by
  simp [pushAt, h]

theorem length_pushAt (acc acc2 : List (List Obj)) (idx : Nat) (r : Obj)
    (h : pushAt acc idx r = some acc2) : acc2.length = acc.length := by
  by_cases hlt : idx < acc.length
  · rw [pushAt_eq_some acc idx r hlt] at h
    cases h
    exact List.length_set _ _ _
  · simp [pushAt, hlt] at h

/-! ## Router lemmas -/

/-- The only throw in the per-item flow is the `error` fallback on an
unrecognized item. -/
theorem processItem_fail_elim (cfg : Config) (T : Nat) (now : String) (json : Obj)
    (msg : String) (h : processItem cfg T now json = .fail msg) :
    cfg.fallbackBehavior = "error" ∧ (classifyItem cfg json).idx = none ∧
      msg = noMatchMsg (normalizedText cfg json) := by
  simp only [processItem] at h
  cases hidx : (classifyItem cfg json).idx with
  | some i => rw [hidx] at h; cases h
  | none =>
    rw [hidx] at h
    by_cases h1 : cfg.fallbackBehavior = "route_to_fallback"
    · rw [if_pos h1] at h; cases h
    · rw [if_neg h1] at h
      by_cases h2 : cfg.fallbackBehavior = "discard"
      · rw [if_pos h2] at h; cases h
      · rw [if_neg h2] at h
        by_cases h3 : cfg.fallbackBehavior = "error"
        · rw [if_pos h3] at h
          cases h
          exact ⟨h3, rfl, rfl⟩
        · rw [if_neg h3, if_neg h1] at h; cases h

/-- Every routed record comes either from a recognized intent (own index,
enriched record) or from the fallback branch (last index, `route_to_fallback`
policy, enriched no-match record). -/
theorem processItem_route_elim (cfg : Config) (T : Nat) (now : String) (json : Obj)
    (idx : Nat) (r : Obj) (h : processItem cfg T now json = .route idx r) :
    r = enrich json (classifyItem cfg json) (normalizedText cfg json) now ∧
      ((classifyItem cfg json).idx = some idx ∨
        ((classifyItem cfg json).idx = none ∧
          cfg.fallbackBehavior = "route_to_fallback" ∧ idx = T - 1)) := by
  simp only [processItem] at h
  cases hidx : (classifyItem cfg json).idx with
  | some i =>
    rw [hidx] at h
    cases h
    exact ⟨rfl, Or.inl rfl⟩
  | none =>
    rw [hidx] at h
    by_cases h1 : cfg.fallbackBehavior = "route_to_fallback"
    · rw [if_pos h1] at h
      cases h
      exact ⟨rfl, Or.inr ⟨rfl, h1, rfl⟩⟩
    · rw [if_neg h1] at h
      by_cases h2 : cfg.fallbackBehavior = "discard"
      · rw [if_pos h2] at h; cases h
      · rw [if_neg h2] at h
        by_cases h3 : cfg.fallbackBehavior = "error"
        · rw [if_pos h3] at h; cases h
        · rw [if_neg h3, if_neg h1] at h; cases h

/-- The routing decision under the `discard` policy: the classifier index,
or silently skipped. -/
theorem processItem_discard (cfg : Config) (T : Nat) (now : String) (json : Obj)
    (hfb : cfg.fallbackBehavior = "discard") :
    processItem cfg T now json =
      match (classifyItem cfg json).idx with
      | some i => .route i (enrich json (classifyItem cfg json) (normalizedText cfg json) now)
      | none => .skip := by
  simp only [processItem]
  cases hidx : (classifyItem cfg json).idx with
  | some i => rfl
  | none => rw [if_neg (by rw [hfb]; decide), if_pos hfb]

/-- Generic loop invariant: when every routed record lands in range and
satisfies `P` at its channel, and no item can throw, the loop succeeds,
preserves the channel count and maintains `P` on every channel. -/
theorem executeLoop_inv (cfg : Config) (cof : Bool) (now : String) (T : Nat)
    (P : Nat → Obj → Prop)
    (hroute : ∀ json idx r, processItem cfg T now json = .route idx r → idx < T ∧ P idx r)
    (hnofail : ∀ json msg, processItem cfg T now json ≠ .fail msg) :
    ∀ (items : List Obj) (acc : List (List Obj)), acc.length = T →
      (∀ i r, r ∈ acc.getD i [] → P i r) →
      ∃ acc2, executeLoop cfg cof now T items acc = .ok acc2 ∧ acc2.length = T ∧
        (∀ i r, r ∈ acc2.getD i [] → P i r) := by
  intro items
  induction items with
  | nil =>
    intro acc hlen hP
    exact ⟨acc, rfl, hlen, hP⟩
  | cons json rest ih =>
    intro acc hlen hP
    cases hpi : processItem cfg T now json with
    | route idx r =>
      obtain ⟨hidx, hPr⟩ := hroute json idx r hpi
      have hlt : idx < acc.length := by omega
      have hpush := pushAt_eq_some acc idx r hlt
      have hlen2 : (acc.set idx (acc.getD idx [] ++ [r])).length = T := by
        rw [List.length_set]; exact hlen
      have hP2 : ∀ i r2, r2 ∈ (acc.set idx (acc.getD idx [] ++ [r])).getD i [] → P i r2 := by
        intro i r2 hmem
        by_cases hij : idx = i
        · subst hij
          rw [getD_set_self2 [] _ acc idx hlt] at hmem
          rcases List.mem_append.mp hmem with hold | hnew
          · exact hP idx r2 hold
          · rw [List.mem_singleton.mp hnew]
            exact hPr
        · rw [getD_set_ne [] _ acc idx i hij] at hmem
          exact hP i r2 hmem
      obtain ⟨acc2, hrun, hlen3, hP3⟩ := ih _ hlen2 hP2
      refine ⟨acc2, ?_, hlen3, hP3⟩
      simp only [executeLoop, hpi, hpush]
      exact hrun
    | skip =>
      obtain ⟨acc2, hrun, hlen3, hP3⟩ := ih acc hlen hP
      refine ⟨acc2, ?_, hlen3, hP3⟩
      simp only [executeLoop, hpi]
      exact hrun
    | fail msg => exact absurd hpi (hnofail json msg)

/-- Under the `discard` policy the loop succeeds and the total number of
appended records is exactly the number of items whose classification
selected an intent. -/
theorem executeLoop_discard_sum (cfg : Config) (cof : Bool) (now : String)
    (hfb : cfg.fallbackBehavior = "discard") :
    ∀ (items : List Obj) (acc : List (List Obj)), acc.length = totalOutputsOf cfg →
      ∃ acc2, executeLoop cfg cof now (totalOutputsOf cfg) items acc = .ok acc2 ∧
        acc2.length = totalOutputsOf cfg ∧
        (acc2.map List.length).sum = (acc.map List.length).sum +
          (items.filter (fun j => ((classifyItem cfg j).idx).isSome)).length := by
  intro items
  induction items with
  | nil =>
    intro acc hlen
    exact ⟨acc, rfl, hlen, by simp⟩
  | cons json rest ih =>
    intro acc hlen
    have hT : cfg.intentsList.length = totalOutputsOf cfg := by
      simp [totalOutputsOf, hfb]
    have hpi := processItem_discard cfg (totalOutputsOf cfg) now json hfb
    cases hidx : (classifyItem cfg json).idx with
    | some i =>
      rw [hidx] at hpi
      have hidx2 : (classify cfg.caseSensitive cfg.confidenceThreshold
          (normalizedText cfg json) json cfg.intentsList).idx = some i := by
        rw [← classifyItem]; exact hidx
      obtain ⟨hj, -, -⟩ := classify_idx_some _ _ _ _ _ i hidx2
      have hlt : i < acc.length := by omega
      have hpush := pushAt_eq_some acc i
        (enrich json (classifyItem cfg json) (normalizedText cfg json) now) hlt
      have hlen2 : (acc.set i (acc.getD i [] ++
          [enrich json (classifyItem cfg json) (normalizedText cfg json) now])).length =
          totalOutputsOf cfg := by
        rw [List.length_set]; exact hlen
      obtain ⟨acc2, hrun, hlen3, hsum⟩ := ih _ hlen2
      refine ⟨acc2, ?_, hlen3, ?_⟩
      · simp only [executeLoop, hpi, hpush]
        exact hrun
      · rw [hsum, sum_lengths_set _ acc i hlt,
          List.filter_cons_of_pos (by simp [hidx])]
        simp only [List.length_cons]
        omega
    | none =>
      rw [hidx] at hpi
      obtain ⟨acc2, hrun, hlen3, hsum⟩ := ih acc hlen
      refine ⟨acc2, ?_, hlen3, ?_⟩
      · simp only [executeLoop, hpi]
        exact hrun
      · rw [hsum, List.filter_cons_of_neg (by simp [hidx])]

/-! ## Parameter-extraction lemmas -/

/-- Parameters whose keys differ from `k` never write to `k`. -/
theorem extractParameters_untouched (json : Obj) :
    ∀ (params : List ParameterOption) (acc : Obj) (k : String),
      (∀ p ∈ params, p.key ≠ k) →
      objLookup (extractParameters json params acc) k = objLookup acc k := by
  intro params
  induction params with
  | nil => intro acc k _; rfl
  | cons p rest ih =>
    intro acc k h
    have hp : p.key ≠ k := h p (List.mem_cons_self _ _)
    have hrest : ∀ q ∈ rest, q.key ≠ k := fun q hq => h q (List.mem_cons_of_mem _ hq)
    simp only [extractParameters]
    cases hjl : objLookup json p.key with
    | some v => rw [ih _ k hrest, objLookup_objSet_ne _ _ _ _ (Ne.symm hp)]
    | none =>
      by_cases hd : p.defaultValue ≠ ""
      · rw [if_pos hd, ih _ k hrest, objLookup_objSet_ne _ _ _ _ (Ne.symm hp)]
      · rw [if_neg hd, ih _ k hrest]

/-- The value extracted for a parameter no other listed parameter shadows:
the record field verbatim, else a non-empty default, else nothing. -/
theorem extractParameters_split (json : Obj) (p : ParameterOption) :
    ∀ (l1 l2 : List ParameterOption) (acc : Obj),
      (∀ q ∈ l1, q.key ≠ p.key) → (∀ q ∈ l2, q.key ≠ p.key) →
      objLookup (extractParameters json (l1 ++ p :: l2) acc) p.key =
        match objLookup json p.key with
        | some v => some v
        | none =>
          if p.defaultValue ≠ "" then some (.str p.defaultValue)
          else objLookup acc p.key := by
  intro l1
  induction l1 with
  | nil =>
    intro l2 acc _ h2
    rw [List.nil_append]
    simp only [extractParameters]
    cases hjl : objLookup json p.key with
    | some v =>
      rw [extractParameters_untouched json l2 _ p.key h2, objLookup_objSet_self]
    | none =>
      by_cases hd : p.defaultValue ≠ ""
      · rw [if_pos hd, if_pos hd,
          extractParameters_untouched json l2 _ p.key h2, objLookup_objSet_self]
      · rw [if_neg hd, if_neg hd, extractParameters_untouched json l2 _ p.key h2]
  | cons q l1' ih =>
    intro l2 acc h1 h2
    have hq : q.key ≠ p.key := h1 q (List.mem_cons_self _ _)
    have hl1' : ∀ x ∈ l1', x.key ≠ p.key := fun x hx => h1 x (List.mem_cons_of_mem _ hx)
    rw [List.cons_append]
    simp only [extractParameters]
    cases hjl : objLookup json q.key with
    | some v =>
      rw [ih l2 _ hl1' h2]
      cases hpl : objLookup json p.key with
      | some w => rfl
      | none =>
        by_cases hd : p.defaultValue ≠ ""
        · rw [if_pos hd, if_pos hd]
        · rw [if_neg hd, if_neg hd, objLookup_objSet_ne _ _ _ _ (Ne.symm hq)]
    | none =>
      by_cases hdq : q.defaultValue ≠ ""
      · rw [if_pos hdq, ih l2 _ hl1' h2]
        cases hpl : objLookup json p.key with
        | some w => rfl
        | none =>
          by_cases hd : p.defaultValue ≠ ""
          · rw [if_pos hd, if_pos hd]
          · rw [if_neg hd, if_neg hd, objLookup_objSet_ne _ _ _ _ (Ne.symm hq)]
      · rw [if_neg hdq, ih l2 _ hl1' h2]

/-! ## Remaining small lemmas -/

/-- When the loop reports no index it also reports no key and no
parameters. -/
theorem classifyLoop_idx_none_key (cs : Bool) (th : ℚ) (text : String) (json : Obj) :
    ∀ (L : List IntentOption) (i : Nat) (conf : ℚ),
      (classifyLoop cs th text json L i conf).idx = none →
      (classifyLoop cs th text json L i conf).key = none ∧
        (classifyLoop cs th text json L i conf).params = [] := by
  intro L
  induction L with
  | nil => intro i conf _; exact ⟨rfl, rfl⟩
  | cons it0 rest ih =>
    intro i conf h
    by_cases hg : keywordGuard it0 = true
    · by_cases hm : 0 < (intentMatches cs text it0).length
      · by_cases hth : th ≤ intentConfidence cs text it0
        · rw [classifyLoop_step_select cs th text json it0 rest i conf hg hm hth] at h
          cases h
        · rw [classifyLoop_step_lowconf cs th text json it0 rest i conf hg hm hth] at h ⊢
          exact ih (i + 1) _ h
      · rw [classifyLoop_step_nomatch cs th text json it0 rest i conf hg hm] at h ⊢
        exact ih (i + 1) conf h
    · rw [classifyLoop_step_noguard cs th text json it0 rest i conf hg] at h ⊢
      exact ih (i + 1) conf h

/-- The empty pattern is a substring of every text (JS
`"any".includes("")` is true). -/
theorem isInfixCh_nil : ∀ l : List Char, isInfixCh [] l = true := by
  intro l
  cases l with
  | nil => rfl
  | cons c rest => simp [isInfixCh, isPrefixCh]

/-- Evaluate the per-intent confidence from concrete match and token
counts. -/
theorem intentConfidence_eval (cs : Bool) (text : String) (it : IntentOption) (m n : Nat)
    (hm : (intentMatches cs text it).length = m) (hn : (intentTokens it).length = n) :
    intentConfidence cs text it = (m : ℚ) / (n : ℚ) := by
  rw [intentConfidence, hm, hn]

theorem getD_replicate_nil :
    ∀ (n i : Nat), (List.replicate n ([] : List Obj)).getD i [] = [] := by
  intro n
  induction n with
  | zero => intro i; simp [List.replicate, List.getD]
  | succ m ih =>
    intro i
    cases i with
    | zero => rfl
    | succ j => exact ih j


/-! ## Claim theorems -/

/-- C7 (confirmed): parameter extraction is total (the embedding is a Lean
function — no error path exists) and soft: a parameter whose name matches
no record field and whose `defaultValue` is empty is absent from the
extracted mapping even when `required` is true (no hypothesis on
`required` appears); a matching record field is used verbatim; otherwise a
non-empty `defaultValue` is used. -/
theorem c7_extraction_omits_missing (json : Obj) (params : List ParameterOption)
    (p : ParameterOption) (hmem : p ∈ params)
    (hnodup : (params.map ParameterOption.key).Nodup) :
    (objLookup json p.key = none → p.defaultValue = "" →
      objLookup (extractParameters json params []) p.key = none) ∧
    (∀ v, objLookup json p.key = some v →
      objLookup (extractParameters json params []) p.key = some v) ∧
    (objLookup json p.key = none → p.defaultValue ≠ "" →
      objLookup (extractParameters json params []) p.key = some (.str p.defaultValue)) := by
  obtain ⟨l1, l2, rfl⟩ := List.append_of_mem hmem
  have hmap : ((l1.map ParameterOption.key) ++
      p.key :: (l2.map ParameterOption.key)).Nodup := by
    simpa using hnodup
  rw [List.nodup_append] at hmap
  obtain ⟨h1n, h2n, hdisj⟩ := hmap
  have hl2 : ∀ q ∈ l2, q.key ≠ p.key := by
    intro q hq heq
    have hmemk : p.key ∈ l2.map ParameterOption.key := by
      rw [← heq]; exact List.mem_map_of_mem _ hq
    exact (List.nodup_cons.mp h2n).1 hmemk
  have hl1 : ∀ q ∈ l1, q.key ≠ p.key := by
    intro q hq heq
    refine hdisj (List.mem_map_of_mem _ hq) ?_
    rw [heq]
    exact List.mem_cons_self _ _
  have hsplit := extractParameters_split json p l1 l2 [] hl1 hl2
  refine ⟨?_, ?_, ?_⟩
  · intro hnone hdef
    rw [hsplit, hnone]
    simp [hdef, objLookup]
  · intro v hv
    rw [hsplit, hv]
  · intro hnone hdef
    rw [hsplit, hnone, if_pos hdef]

/-- Witness for C7 at concrete inputs: a required `date` parameter with no
source and empty default is omitted; a present field is copied verbatim; a
non-empty default fills in. -/
theorem c7_witness :
    objLookup (extractParameters [("other", JsonValue.str "x")]
      [ParameterOption.mk "date" "string" true ""] []) "date" = none ∧
    objLookup (extractParameters [("date", JsonValue.str "tomorrow")]
      [ParameterOption.mk "date" "string" true ""] []) "date" =
        some (JsonValue.str "tomorrow") ∧
    objLookup (extractParameters [("other", JsonValue.str "x")]
      [ParameterOption.mk "date" "string" true "friday"] []) "date" =
        some (JsonValue.str "friday") :=
  ⟨(c7_extraction_omits_missing _ _ _ (List.mem_singleton_self _) (by simp)).1 rfl rfl,
   (c7_extraction_omits_missing _ _ _ (List.mem_singleton_self _) (by simp)).2.1 _ rfl,
   (c7_extraction_omits_missing _ _ _ (List.mem_singleton_self _) (by simp)).2.2 rfl
     (by decide)⟩

/-- C10 (confirmed): an intent none of whose keyword tokens occurs in the
normalized text is never the selected intent, for every threshold —
including 0: selection demands at least one matched keyword on top of the
threshold test. -/
theorem c10_zero_threshold_no_free_match (cs : Bool) (th : ℚ) (text : String) (json : Obj)
    (L : List IntentOption) (i : Nat) (hi : i < L.length)
    (hnone : ∀ t ∈ intentTokens (L.get ⟨i, hi⟩),
      jsIncludes text (searchKeyword cs t) = false) :
    (classify cs th text json L).idx ≠ some i := by
  intro h
  obtain ⟨hj, hsel, -⟩ := classify_idx_some cs th text json L i h
  obtain ⟨-, hm, -⟩ := selectable_elim _ _ _ _ hsel
  have hempty : intentMatches cs text (L.get ⟨i, hj⟩) = [] := by
    simp only [intentMatches, keywordMatches]
    refine List.filter_eq_nil_iff.mpr ?_
    intro t ht
    simp only [Bool.not_eq_true]
    exact hnone t ht
  rw [hempty] at hm
  simp at hm

def c10Intent : IntentOption := ⟨"alpha", "", some "x", []⟩

/-- Witness for C10: with threshold 0, an intent whose only keyword is
absent from the text is still not selected. -/
theorem c10_witness : (classify false 0 "zzz" [] [c10Intent]).idx ≠ some 0 :=
  c10_zero_threshold_no_free_match false 0 "zzz" [] [c10Intent] 0 (by decide) (by decide)

/-- An intent whose only keyword is not in the text: per-intent confidence
0, which still meets a threshold of 0. -/
def c2IntentFirst : IntentOption := ⟨"first", "", some "q", []⟩

/-- A later intent whose keyword is in the text. -/
def c2IntentSecond : IntentOption := ⟨"second", "", some "yes", []⟩

/-- Counterexample to C2 as stated: with threshold 0 both intents reach a
per-intent confidence ≥ threshold (0 ≥ 0 and 1 ≥ 0), the earlier-declared
such intent is `first`, yet the classifier selects `second` — selection
also demands at least one matched keyword, which C2's wording omits. -/
theorem c2_counterexample :
    (0 : ℚ) ≤ intentConfidence false "yes" c2IntentFirst ∧
    (0 : ℚ) ≤ intentConfidence false "yes" c2IntentSecond ∧
    (classify false 0 "yes" [] [c2IntentFirst, c2IntentSecond]).idx = some 1 ∧
    (classify false 0 "yes" [] [c2IntentFirst, c2IntentSecond]).key = some "second" := by
  have h1 : intentConfidence false "yes" c2IntentFirst = 0 := by
    rw [intentConfidence_eval false "yes" c2IntentFirst 0 1 rfl rfl]
    norm_num
  have h2 : intentConfidence false "yes" c2IntentSecond = 1 := by
    rw [intentConfidence_eval false "yes" c2IntentSecond 1 1 rfl rfl]
    norm_num
  have hns : selectable false 0 "yes" c2IntentFirst = false := by
    simp only [selectable, hasAnyMatch, Bool.and_eq_false_iff]
    left; right
    simp [show (intentMatches false "yes" c2IntentFirst).length = 0 from rfl]
  have hsel : selectable false 0 "yes" c2IntentSecond = true := by
    simp only [selectable, hasAnyMatch, Bool.and_eq_true, decide_eq_true_eq]
    refine ⟨⟨by decide, by simp [show (intentMatches false "yes" c2IntentSecond).length = 1 from rfl]⟩, ?_⟩
    rw [h2]
    norm_num
  have hcl := classify_first false 0 "yes" [] [c2IntentFirst] c2IntentSecond [] hsel
    (by intro x hx; rw [List.mem_singleton.mp hx]; exact hns)
  refine ⟨by rw [h1], by rw [h2]; norm_num, ?_, ?_⟩
  · rw [show [c2IntentFirst, c2IntentSecond] = [c2IntentFirst] ++ c2IntentSecond :: [] from rfl,
      hcl]
    rfl
  · rw [show [c2IntentFirst, c2IntentSecond] = [c2IntentFirst] ++ c2IntentSecond :: [] from rfl,
      hcl]
    rfl

/-- C2 amended (proved): among intents that reach the threshold AND have at
least one matched keyword (`selectable`), the earliest-declared one wins:
whatever list `l2` of later intents follows — including intents of
strictly higher confidence — the result is determined by the first
selectable intent, so evaluation effectively stops there. -/
theorem c2_first_match_wins (cs : Bool) (th : ℚ) (text : String) (json : Obj)
    (l1 : List IntentOption) (it : IntentOption) (l2 : List IntentOption)
    (hns : ∀ x ∈ l1, selectable cs th text x = false)
    (hsel : selectable cs th text it = true) :
    (classify cs th text json (l1 ++ it :: l2)).idx = some l1.length ∧
    (classify cs th text json (l1 ++ it :: l2)).key = some it.key ∧
    (classify cs th text json (l1 ++ it :: l2)).confidence =
      intentConfidence cs text it := by
  rw [classify_first cs th text json l1 it l2 hsel hns]
  exact ⟨rfl, rfl, rfl⟩

/-- An intent with one matching keyword out of two: confidence 1/2. -/
def c2IntentEarly : IntentOption := ⟨"early", "", some "x,q", []⟩

/-- A later intent with strictly higher confidence (1 > 1/2). -/
def c2IntentLate : IntentOption := ⟨"late", "", some "x", []⟩

/-- Witness for the amended C2: the early intent at confidence 1/2 beats
the later intent at confidence 1 when the threshold is 1/2. -/
theorem c2_witness :
    (classify false (1/2) "x" [] [c2IntentFirst, c2IntentEarly, c2IntentLate]).idx = some 1 ∧
    (classify false (1/2) "x" [] [c2IntentFirst, c2IntentEarly, c2IntentLate]).key =
      some "early" ∧
    (classify false (1/2) "x" [] [c2IntentFirst, c2IntentEarly, c2IntentLate]).confidence =
      intentConfidence false "x" c2IntentEarly := by
  have h := c2_first_match_wins false (1/2) "x" [] [c2IntentFirst] c2IntentEarly [c2IntentLate]
    (by
      intro x hx
      rw [List.mem_singleton.mp hx]
      simp only [selectable, hasAnyMatch, Bool.and_eq_false_iff]
      left; right
      simp [show (intentMatches false "x" c2IntentFirst).length = 0 from rfl])
    (by
      simp only [selectable, hasAnyMatch, Bool.and_eq_true, decide_eq_true_eq]
      refine ⟨⟨by decide, by simp [show (intentMatches false "x" c2IntentEarly).length = 1 from rfl]⟩, ?_⟩
      rw [intentConfidence_eval false "x" c2IntentEarly 1 2 rfl rfl]
      norm_num)
  exact h

/-- Per-intent confidence as the specification words it (§4.2): the
keyword tokens are the comma-split, trimmed, NON-EMPTY tokens of the
keyword string, and confidence is matched tokens over total tokens (0 for
an empty token list or an absent keyword string).  Stated for comparison
with `intentConfidence`, which embeds the source. -/
def specIntentConfidence (cs : Bool) (text : String) (it : IntentOption) : ℚ :=
  match it.keywords with
  | none => 0
  | some s =>
    let tokens := ((jsSplitComma s).map jsTrim).filter (fun t => t ≠ "")
    if tokens.length = 0 then 0
    else ((keywordMatches cs text tokens).length : ℚ) / (tokens.length : ℚ)

/-- The keyword string of `c3Intent` ends in a comma, so the source keeps
an empty token. -/
def c3Intent : IntentOption := ⟨"alpha", "", some "hi,", []⟩

/-- Counterexample to C3 as stated: for keyword string `hi,` and text
`zzz` the source's token list is `["hi", ""]` — the empty token is NOT
filtered out, and since every string contains the empty substring the
source computes confidence 1/2 where the claim's formula (non-empty tokens
only) gives 0; at threshold 1/2 the source even selects the intent. -/
theorem c3_counterexample :
    intentTokens c3Intent = ["hi", ""] ∧
    intentConfidence false "zzz" c3Intent = 1/2 ∧
    specIntentConfidence false "zzz" c3Intent = 0 ∧
    intentConfidence false "zzz" c3Intent ≠ specIntentConfidence false "zzz" c3Intent ∧
    (classify false (1/2) "zzz" [] [c3Intent]).idx = some 0 := by
  have hconf : intentConfidence false "zzz" c3Intent = 1/2 := by
    rw [intentConfidence_eval false "zzz" c3Intent 1 2 rfl rfl]
    norm_num
  have hspec : specIntentConfidence false "zzz" c3Intent = 0 := by
    simp only [specIntentConfidence, c3Intent]
    rw [show ((jsSplitComma "hi,").map jsTrim).filter (fun t => t ≠ "") = ["hi"] from by decide]
    rw [show keywordMatches false "zzz" ["hi"] = [] from by decide]
    norm_num
  have hsel : selectable false (1/2) "zzz" c3Intent = true := by
    simp only [selectable, hasAnyMatch, Bool.and_eq_true, decide_eq_true_eq]
    refine ⟨⟨by decide, by simp [show (intentMatches false "zzz" c3Intent).length = 1 from rfl]⟩, ?_⟩
    rw [hconf]
  have hcl := classify_first false (1/2) "zzz" [] [] c3Intent [] hsel
    (by intro x hx; exact absurd hx (List.not_mem_nil x))
  rw [List.nil_append] at hcl
  refine ⟨rfl, hconf, hspec, ?_, ?_⟩
  · rw [hconf, hspec]
    norm_num
  · rw [hcl]
    rfl

/-- Helper: the comma-tailed intent is selectable at threshold 1/2 against
text without any of its real keywords, via its empty token. -/
theorem c3Intent_selectable : selectable false (1/2) "zzz" c3Intent = true := by
  simp only [selectable, hasAnyMatch, Bool.and_eq_true, decide_eq_true_eq]
  refine ⟨⟨by decide, by simp [show (intentMatches false "zzz" c3Intent).length = 1 from rfl]⟩, ?_⟩
  rw [intentConfidence_eval false "zzz" c3Intent 1 2 rfl rfl]
  norm_num

/-- C3 amended (proved): the classifier's reported/selection confidence for
the selected intent equals matched tokens over total tokens where the
tokens are the comma-split, trimmed tokens WITHOUT filtering of empty
tokens; an intent with an empty or absent keyword string still can never
match (`keywordGuard`); and an empty token is always counted as found,
which is what forces the amendment. -/
theorem c3_confidence_formula :
    (∀ (cs : Bool) (th : ℚ) (text : String) (json : Obj) (L : List IntentOption) (i : Nat),
      (classify cs th text json L).idx = some i →
      ∃ hi : i < L.length,
        keywordGuard (L.get ⟨i, hi⟩) = true ∧
        (classify cs th text json L).confidence = intentConfidence cs text (L.get ⟨i, hi⟩) ∧
        intentConfidence cs text (L.get ⟨i, hi⟩) =
          (((intentTokens (L.get ⟨i, hi⟩)).filter
            (fun t => jsIncludes text (searchKeyword cs t))).length : ℚ) /
            ((intentTokens (L.get ⟨i, hi⟩)).length : ℚ)) ∧
    (∀ (cs : Bool) (text : String), jsIncludes text (searchKeyword cs "") = true) := by
  constructor
  · intro cs th text json L i h
    obtain ⟨hj, hsel, heq⟩ := classify_idx_some cs th text json L i h
    obtain ⟨hg, -, -⟩ := selectable_elim _ _ _ _ hsel
    refine ⟨hj, hg, ?_, rfl⟩
    rw [heq]
  · intro cs text
    have hsk : searchKeyword cs "" = "" := by cases cs <;> rfl
    rw [hsk, jsIncludes, show ("" : String).data = [] from rfl, isInfixCh_nil]

/-- Witness for the amended C3: the comma-tailed intent is selected and the
reported confidence is its per-intent confidence; the empty token matches
an arbitrary text. -/
theorem c3_witness :
    (classify false (1/2) "zzz" [] [c3Intent]).confidence =
      intentConfidence false "zzz" c3Intent ∧
    jsIncludes "abc" (searchKeyword false "") = true := by
  have hidx : (classify false (1/2) "zzz" [] [c3Intent]).idx = some 0 := by
    have hcl := classify_first false (1/2) "zzz" [] [] c3Intent [] c3Intent_selectable
      (by intro x hx; exact absurd hx (List.not_mem_nil x))
    rw [List.nil_append] at hcl
    rw [hcl]
    rfl
  obtain ⟨hi, -, hconf, -⟩ :=
    c3_confidence_formula.1 false (1/2) "zzz" [] [c3Intent] 0 hidx
  exact ⟨hconf, c3_confidence_formula.2 false "abc"⟩

/-- First intent of the C9 scenario: half its keywords match (confidence
1/2, below the 9/10 threshold). -/
def c9IntentA : IntentOption := ⟨"alpha", "", some "x,y", []⟩

/-- Last intent of the C9 scenario: no keyword matches, so the loop never
assigns its confidence. -/
def c9IntentB : IntentOption := ⟨"beta", "", some "q", []⟩

/-- Helper: neither C9 intent clears the 9/10 threshold against text
`x`. -/
theorem c9_not_selectable :
    ∀ it ∈ [c9IntentA, c9IntentB], selectable false (9/10) "x" it = false := by
  intro it hit
  rcases List.mem_cons.mp hit with h | h
  · subst h
    have hc : intentConfidence false "x" c9IntentA = 1/2 := by
      rw [intentConfidence_eval false "x" c9IntentA 1 2 rfl rfl]
      norm_num
    have hth : ¬ ((9:ℚ)/10 ≤ intentConfidence false "x" c9IntentA) := by
      rw [hc]; norm_num
    simp [selectable, hth]
  · rw [List.mem_singleton.mp h]
    simp only [selectable, hasAnyMatch, Bool.and_eq_false_iff]
    left; right
    simp [show (intentMatches false "x" c9IntentB).length = 0 from rfl]

/-- Counterexample to C9 as stated: with no intent reaching the threshold,
the reported confidence is 1/2 — the value last ASSIGNED, by the earlier
intent `alpha` — not the per-intent confidence 0 of `beta`, the last
intent actually evaluated before falling through: the loop variable is
only written when an intent has at least one keyword match. -/
theorem c9_counterexample :
    (classify false (9/10) "x" [] [c9IntentA, c9IntentB]).idx = none ∧
    (classify false (9/10) "x" [] [c9IntentA, c9IntentB]).confidence = 1/2 ∧
    intentConfidence false "x" c9IntentB = 0 ∧
    (classify false (9/10) "x" [] [c9IntentA, c9IntentB]).confidence ≠
      intentConfidence false "x" c9IntentB := by
  have hcl := classify_of_none false (9/10) "x" [] [c9IntentA, c9IntentB] c9_not_selectable
  have hfall : fallthroughConfidence false "x" [c9IntentA, c9IntentB] = 1/2 := by
    simp only [fallthroughConfidence]
    rw [show List.filter (hasAnyMatch false "x") [c9IntentA, c9IntentB] = [c9IntentA] from rfl,
      show ([c9IntentA] : List IntentOption).getLast? = some c9IntentA from rfl]
    show intentConfidence false "x" c9IntentA = 1/2
    rw [intentConfidence_eval false "x" c9IntentA 1 2 rfl rfl]
    norm_num
  have hB : intentConfidence false "x" c9IntentB = 0 := by
    rw [intentConfidence_eval false "x" c9IntentB 0 1 rfl rfl]
    norm_num
  refine ⟨by rw [hcl], by rw [hcl]; exact hfall, hB, ?_⟩
  rw [hcl, hB]
  show fallthroughConfidence false "x" [c9IntentA, c9IntentB] ≠ 0
  rw [hfall]
  norm_num

/-- C9 amended (proved): when no intent is selectable, the result carries
no matched key and its confidence is the fall-through artifact: the
per-intent confidence of the LAST intent that passed the keywords guard
with at least one keyword match (0 when there is none) — not necessarily
of the last intent evaluated. -/
theorem c9_fallthrough_confidence (cs : Bool) (th : ℚ) (text : String) (json : Obj)
    (L : List IntentOption) (h : ∀ it ∈ L, selectable cs th text it = false) :
    (classify cs th text json L).idx = none ∧
    (classify cs th text json L).key = none ∧
    (classify cs th text json L).confidence = fallthroughConfidence cs text L := by
  rw [classify_of_none cs th text json L h]
  exact ⟨rfl, rfl, rfl⟩

/-- Witness for the amended C9 on the two-intent scenario. -/
theorem c9_witness :
    (classify false (9/10) "x" [] [c9IntentA, c9IntentB]).key = none ∧
    (classify false (9/10) "x" [] [c9IntentA, c9IntentB]).confidence =
      fallthroughConfidence false "x" [c9IntentA, c9IntentB] :=
  ⟨(c9_fallthrough_confidence false (9/10) "x" [] [c9IntentA, c9IntentB]
      c9_not_selectable).2.1,
   (c9_fallthrough_confidence false (9/10) "x" [] [c9IntentA, c9IntentB]
      c9_not_selectable).2.2⟩

/-- A record whose designated input field is present but holds the empty
string — a falsy value in JS. -/
def c8Json : Obj := [("message", JsonValue.str "")]

/-- Counterexample to C8 as stated: the `message` field is present, yet
the analysed text is the JSON serialization of the whole record, not the
field's (empty-string) value — the source tests JS truthiness
(`if (item.json[inputField])`), not presence. -/
theorem c8_counterexample :
    objLookup c8Json "message" = some (JsonValue.str "") ∧
    textToAnalyze "message" c8Json = JsonValue.stringify (.obj c8Json) ∧
    textToAnalyze "message" c8Json ≠ (JsonValue.str "").jsToString := by
  refine ⟨rfl, rfl, ?_⟩
  rw [show textToAnalyze "message" c8Json = JsonValue.stringify (.obj c8Json) from rfl]
  decide

/-- C8 amended (proved): the analysed text is the designated field's
`String(...)` coercion when the field is present with a JS-truthy value;
when the field is absent OR present with a falsy value, the JSON
serialization of the whole record is used instead; and a missing (or
falsy) input field never fails a record — the only throw in per-item
processing is the `error` fallback policy on an unmatched record. -/
theorem c8_input_text_selection :
    (∀ (f : String) (json : Obj) (v : JsonValue),
      objLookup json f = some v → v.truthy = true →
      textToAnalyze f json = v.jsToString) ∧
    (∀ (f : String) (json : Obj),
      objLookup json f = none →
      textToAnalyze f json = JsonValue.stringify (.obj json)) ∧
    (∀ (f : String) (json : Obj) (v : JsonValue),
      objLookup json f = some v → v.truthy = false →
      textToAnalyze f json = JsonValue.stringify (.obj json)) ∧
    (∀ (cfg : Config) (T : Nat) (now : String) (json : Obj) (msg : String),
      processItem cfg T now json = .fail msg →
      cfg.fallbackBehavior = "error" ∧ (classifyItem cfg json).idx = none) := by
  refine ⟨?_, ?_, ?_, ?_⟩
  · intro f json v hv ht
    rw [textToAnalyze, hv]
    show (if v.truthy = true then v.jsToString else (JsonValue.obj json).stringify) =
      v.jsToString
    rw [if_pos ht]
  · intro f json hn
    rw [textToAnalyze, hn]
  · intro f json v hv ht
    rw [textToAnalyze, hv]
    show (if v.truthy = true then v.jsToString else (JsonValue.obj json).stringify) =
      (JsonValue.obj json).stringify
    rw [if_neg (show ¬ v.truthy = true from by rw [ht]; exact Bool.false_ne_true)]
  · intro cfg T now json msg h
    obtain ⟨hfb, hidx, -⟩ := processItem_fail_elim cfg T now json msg h
    exact ⟨hfb, hidx⟩

/-- A configuration with the `error` policy and no intents, whose every
record fails. -/
def c8ErrCfg : Config := ⟨[], "error", false, 1/2, "message"⟩

/-- Witness for the amended C8: truthy field used verbatim, absent field
and falsy field degrade to serialization, and the only failing
configuration exercised is the `error` policy. -/
theorem c8_witness :
    textToAnalyze "message" [("message", JsonValue.str "hi")] = "hi" ∧
    textToAnalyze "message" [("other", JsonValue.str "hi")] =
      JsonValue.stringify (.obj [("other", JsonValue.str "hi")]) ∧
    textToAnalyze "message" c8Json = JsonValue.stringify (.obj c8Json) ∧
    c8ErrCfg.fallbackBehavior = "error" :=
  ⟨c8_input_text_selection.1 "message" [("message", JsonValue.str "hi")]
      (JsonValue.str "hi") rfl rfl,
   c8_input_text_selection.2.1 "message" [("other", JsonValue.str "hi")] rfl,
   c8_input_text_selection.2.2.1 "message" c8Json (JsonValue.str "") rfl rfl,
   (c8_input_text_selection.2.2.2 c8ErrCfg 0 "t0" []
      (noMatchMsg (normalizedText c8ErrCfg [])) rfl).1⟩

/-- The single intent of the C6 scenario. -/
def c6Intent : IntentOption := ⟨"greet", "", some "hello", []⟩

/-- Configuration for the C6 scenario. -/
def c6Cfg : Config := ⟨[c6Intent], "route_to_fallback", false, 1/2, "message"⟩

/-- An input record that already carries a field named
`recognizedIntent`. -/
def c6Json : Obj :=
  [("recognizedIntent", JsonValue.str "original"), ("message", JsonValue.str "hello")]

/-- Helper: the C6 intent is selectable against the text `hello`. -/
theorem c6Intent_selectable : selectable false (1/2) "hello" c6Intent = true := by
  simp only [selectable, hasAnyMatch, Bool.and_eq_true, decide_eq_true_eq]
  refine ⟨⟨by decide, by simp [show (intentMatches false "hello" c6Intent).length = 1 from rfl]⟩, ?_⟩
  rw [intentConfidence_eval false "hello" c6Intent 1 1 rfl rfl]
  norm_num

/-- Helper: the classifier result on the C6 scenario record. -/
theorem c6_classifyItem :
    classifyItem c6Cfg c6Json =
      ⟨some 0, some "greet", [], intentConfidence false "hello" c6Intent⟩ := by
  have hcl := classify_first false (1/2) "hello" c6Json [] c6Intent [] c6Intent_selectable
    (by intro x hx; exact absurd hx (List.not_mem_nil x))
  rw [List.nil_append] at hcl
  show classify false (1/2) "hello" c6Json [c6Intent] =
    ⟨some 0, some "greet", [], intentConfidence false "hello" c6Intent⟩
  rw [hcl]
  rfl

/-- The record the C6 scenario routes to channel 0. -/
def c6Routed : Obj :=
  match processItem c6Cfg 2 "t0" c6Json with
  | .route _ r => r
  | _ => []

/-- Counterexample to C6 as stated: the input record's own
`recognizedIntent` field does NOT survive to the emitted record — the
enrichment spread overwrites it with the matched key `greet`, so
enrichment is destructive on the reserved field names. -/
theorem c6_counterexample :
    objLookup c6Json "recognizedIntent" = some (JsonValue.str "original") ∧
    objLookup c6Routed "recognizedIntent" = some (JsonValue.str "greet") ∧
    JsonValue.str "greet" ≠ JsonValue.str "original" := by
  have hpi : processItem c6Cfg 2 "t0" c6Json =
      .route 0 (enrich c6Json ⟨some 0, some "greet", [],
        intentConfidence false "hello" c6Intent⟩ (normalizedText c6Cfg c6Json) "t0") := by
    simp only [processItem, c6_classifyItem]
  have hr : c6Routed = enrich c6Json ⟨some 0, some "greet", [],
      intentConfidence false "hello" c6Intent⟩ (normalizedText c6Cfg c6Json) "t0" := by
    rw [c6Routed, hpi]
  refine ⟨rfl, ?_, ?_⟩
  · rw [hr, objLookup_enrich_recognizedIntent]
  · intro h
    injection h with h2
    exact absurd h2 (by decide)

/-- C6 amended (proved): every input field whose name is NOT one of the
enrichment names (`recognizedIntent`, `extractedParameters`,
`intentMetadata`) is present with the same value on every routed record;
on the continue-on-failure error record the same holds for names outside
those three plus `error`, and the record carries the error message, a
nulled `recognizedIntent` and emptied `extractedParameters`.  Fields named
like an enrichment field are overwritten — the amendment C6 needs. -/
theorem c6_frame_preservation (cfg : Config) (T : Nat) (now : String) (json : Obj)
    (idx : Nat) (r : Obj) (hroute : processItem cfg T now json = .route idx r) :
    (∀ (k : String) (v : JsonValue), objLookup json k = some v →
      k ≠ "recognizedIntent" → k ≠ "extractedParameters" → k ≠ "intentMetadata" →
      objLookup r k = some v) ∧
    (∀ (msg k : String) (v : JsonValue), objLookup json k = some v →
      k ≠ "error" → k ≠ "recognizedIntent" → k ≠ "extractedParameters" →
      k ≠ "intentMetadata" →
      objLookup (errorRecord json msg now) k = some v) ∧
    (∀ msg : String,
      objLookup (errorRecord json msg now) "error" = some (.str msg) ∧
      objLookup (errorRecord json msg now) "recognizedIntent" = some .null ∧
      objLookup (errorRecord json msg now) "extractedParameters" = some (.obj [])) := by
  obtain ⟨hr, -⟩ := processItem_route_elim cfg T now json idx r hroute
  refine ⟨?_, ?_, ?_⟩
  · intro k v hv h1 h2 h3
    rw [hr, objLookup_enrich_of_ne _ _ _ _ _ h1 h2 h3]
    exact hv
  · intro msg k v hv h0 h1 h2 h3
    rw [objLookup_errorRecord_of_ne _ _ _ _ h0 h1 h2 h3]
    exact hv
  · intro msg
    exact ⟨objLookup_errorRecord_error json msg now,
      objLookup_errorRecord_recognizedIntent json msg now,
      objLookup_errorRecord_extractedParameters json msg now⟩

/-- Witness for the amended C6: the `message` field survives routing
verbatim on the C6 scenario, and the error record on the same input
preserves it while annotating the error fields. -/
theorem c6_witness :
    objLookup c6Routed "message" = some (JsonValue.str "hello") ∧
    objLookup (errorRecord c6Json "boom" "t0") "message" = some (JsonValue.str "hello") ∧
    objLookup (errorRecord c6Json "boom" "t0") "error" = some (JsonValue.str "boom") := by
  have hpi : processItem c6Cfg 2 "t0" c6Json =
      .route 0 (enrich c6Json ⟨some 0, some "greet", [],
        intentConfidence false "hello" c6Intent⟩ (normalizedText c6Cfg c6Json) "t0") := by
    simp only [processItem, c6_classifyItem]
  have h := c6_frame_preservation c6Cfg 2 "t0" c6Json 0
    (enrich c6Json ⟨some 0, some "greet", [],
      intentConfidence false "hello" c6Intent⟩ (normalizedText c6Cfg c6Json) "t0") hpi
  refine ⟨?_, ?_, (h.2.2 "boom").1⟩
  · have hm := h.1 "message" (JsonValue.str "hello") rfl (by decide) (by decide) (by decide)
    rw [show c6Routed = enrich c6Json ⟨some 0, some "greet", [],
      intentConfidence false "hello" c6Intent⟩ (normalizedText c6Cfg c6Json) "t0" from by
        rw [c6Routed, hpi]]
    exact hm
  · exact h.2.1 "boom" "message" (JsonValue.str "hello") rfl (by decide) (by decide)
      (by decide) (by decide)

/-- C5 (confirmed): under `fallbackBehavior = discard` the batch always
succeeds and the total number of records emitted across all channels
equals the number of input records whose classification selected an
intent — unmatched records are appended to no channel at all. -/
theorem c5_discard_totals (cfg : Config) (hfb : cfg.fallbackBehavior = "discard")
    (cof : Bool) (now : String) (items : List Obj) :
    ∃ chs, execute cfg cof now items = .ok chs ∧
      (chs.map List.length).sum =
        (items.filter (fun j => ((classifyItem cfg j).idx).isSome)).length := by
  obtain ⟨acc2, hrun, hlen, hsum⟩ := executeLoop_discard_sum cfg cof now hfb items
    (List.replicate (totalOutputsOf cfg) []) (by simp)
  have hsum0 : ((List.replicate (totalOutputsOf cfg) ([] : List Obj)).map List.length).sum
      = 0 := by
    simp
  by_cases h0 : 0 < totalOutputsOf cfg
  · refine ⟨acc2, ?_, ?_⟩
    · rw [execute, hrun]
      show Except.ok (if 0 < acc2.length then acc2 else [[]]) = Except.ok acc2
      rw [if_pos (by omega : 0 < acc2.length)]
    · rw [hsum, hsum0]
      omega
  · -- no outputs at all: the intent list is empty, nothing ever matches
    have hnil : cfg.intentsList = [] := by
      have : cfg.intentsList.length = 0 := by
        simp only [totalOutputsOf] at h0
        omega
      exact List.length_eq_zero.mp this
    have hnomatch : ∀ j : Obj, ((classifyItem cfg j).idx).isSome = false := by
      intro j
      rw [classifyItem, hnil]
      rfl
    refine ⟨[[]], ?_, ?_⟩
    · rw [execute, hrun]
      show Except.ok (if 0 < acc2.length then acc2 else [[]]) = Except.ok [[]]
      rw [if_neg (by omega : ¬ 0 < acc2.length)]
    · rw [show (([[]] : List (List Obj)).map List.length).sum = 0 from rfl]
      rw [List.filter_eq_nil_iff.mpr (by intro j _; simp [hnomatch j])]
      rfl

/-- Configuration for the C5 witness: one intent, discard policy. -/
def c5Cfg : Config := ⟨[c6Intent], "discard", false, 1/2, "message"⟩

/-- Witness for C5 on a two-record batch (one match, one discard). -/
theorem c5_witness :
    ∃ chs, execute c5Cfg false "t0"
        [[("message", JsonValue.str "hello")], [("message", JsonValue.str "zzz")]] =
        .ok chs ∧
      (chs.map List.length).sum =
        ([[("message", JsonValue.str "hello")], [("message", JsonValue.str "zzz")]].filter
          (fun j => ((classifyItem c5Cfg j).idx).isSome)).length :=
  c5_discard_totals c5Cfg rfl false "t0"
    [[("message", JsonValue.str "hello")], [("message", JsonValue.str "zzz")]]

/-- A configuration with two intents sharing the key `dup`. -/
def c4DupCfg : Config :=
  ⟨[⟨"dup", "", some "p", []⟩, ⟨"dup", "", some "q", []⟩],
    "route_to_fallback", false, 1/2, "message"⟩

/-- An empty-intent configuration with a non-fallback policy. -/
def c4EmptyCfg : Config := ⟨[], "discard", false, 1/2, "message"⟩

/-- An empty-intent configuration with the `error` policy. -/
def c4ErrEmptyCfg : Config := ⟨[], "error", false, 1/2, "message"⟩

/-- Counterexample to C4 as stated: a duplicate-key configuration is
processed without any error (three channels are produced); an
empty-intent configuration under `discard` also succeeds, returning the
single normalized empty channel; and even the empty-intent `error`-policy
configuration raises nothing before record processing — an empty batch
succeeds.  No `ConfigurationError` is raised anywhere; the code contains
no duplicate-key or empty-topology check. -/
theorem c4_counterexample :
    (execute c4DupCfg false "t0" [[("message", JsonValue.str "zzz")]]).toOption.map
      List.length = some 3 ∧
    execute c4EmptyCfg false "t0" [[("message", JsonValue.str "zzz")]] = .ok [[]] ∧
    execute c4ErrEmptyCfg false "t0" [] = .ok [[]] ∧
    configuredOutputs [] "discard" = [⟨"main", "Main"⟩] := by
  exact ⟨rfl, rfl, rfl, rfl⟩

/-- The UI topology descriptor count: one per intent, plus the fallback
descriptor exactly under `route_to_fallback`, with the empty case
normalized to a single `Main` descriptor. -/
theorem configuredOutputs_length (L : List IntentOption) (fb : String) :
    (configuredOutputs L fb).length =
      max (L.length + (if fb = "route_to_fallback" then 1 else 0)) 1 := by
  simp only [configuredOutputs]
  by_cases hrtf : fb = "route_to_fallback"
  · rw [if_pos hrtf, if_pos hrtf]
    rw [if_pos (by simp [List.enum_length])]
    rw [List.length_append, List.length_map, List.enum_length, List.length_singleton]
    omega
  · rw [if_neg hrtf, if_neg hrtf]
    by_cases hK : 0 < L.length
    · rw [if_pos (by rw [List.length_map, List.enum_length]; omega)]
      rw [List.length_map, List.enum_length]
      omega
    · rw [if_neg (by rw [List.length_map, List.enum_length]; omega)]
      rw [List.length_singleton]
      omega

/-- C4 amended (proved): no `ConfigurationError` exists and nothing is
validated before record processing.  (1) For every configuration whose
fallback policy is not `error` — duplicate intent keys included — the
batch succeeds with `max totalOutputs 1` channels.  (2) `configuredOutputs`
never fails either, producing one descriptor per intent (duplicates and
all), a fallback descriptor exactly under `route_to_fallback`, and a
single `Main` descriptor instead of zero.  (3) With an empty intent list
under the `error` policy no error precedes the records: an empty batch
succeeds, returning the single normalized empty channel; errors arise
only per record — in strict mode the batch fails with the first record's
no-intent-matched `NodeOperationError`, and under continue-on-fail it
dies with a `TypeError` appending the error record to the nonexistent
channel 0. -/
theorem c4_no_configuration_validation (cfg : Config) (cof : Bool) (now : String)
    (items : List Obj) :
    (cfg.fallbackBehavior ≠ "error" →
      ∃ chs, execute cfg cof now items = .ok chs ∧
        chs.length = max (totalOutputsOf cfg) 1) ∧
    ((configuredOutputs cfg.intentsList cfg.fallbackBehavior).length =
      max (totalOutputsOf cfg) 1) ∧
    (cfg.intentsList = [] → cfg.fallbackBehavior = "error" →
      execute cfg cof now [] = .ok [[]] ∧
      (∀ (json : Obj) (rest : List Obj), items = json :: rest →
        execute cfg false now items = .error (noMatchMsg (normalizedText cfg json)) ∧
        execute cfg true now items = .error "TypeError: undefined output channel")) := by
  refine ⟨?_, configuredOutputs_length cfg.intentsList cfg.fallbackBehavior, ?_⟩
  · intro hfb
    have hroute : ∀ (json : Obj) (idx : Nat) (r : Obj),
        processItem cfg (totalOutputsOf cfg) now json = .route idx r →
        idx < totalOutputsOf cfg ∧ True := by
      intro json idx r h
      obtain ⟨-, hcase⟩ := processItem_route_elim cfg (totalOutputsOf cfg) now json idx r h
      rcases hcase with hsome | ⟨-, hrtf, hidx⟩
      · have hidx2 : (classify cfg.caseSensitive cfg.confidenceThreshold
            (normalizedText cfg json) json cfg.intentsList).idx = some idx := by
          rw [← classifyItem]; exact hsome
        obtain ⟨hj, -, -⟩ := classify_idx_some _ _ _ _ _ idx hidx2
        refine ⟨?_, trivial⟩
        simp only [totalOutputsOf]
        omega
      · refine ⟨?_, trivial⟩
        rw [hidx]
        simp only [totalOutputsOf, hrtf, if_pos]
        omega
    have hnofail : ∀ (json : Obj) (msg : String),
        processItem cfg (totalOutputsOf cfg) now json ≠ .fail msg := by
      intro json msg h
      obtain ⟨herr, -, -⟩ := processItem_fail_elim cfg (totalOutputsOf cfg) now json msg h
      exact hfb herr
    obtain ⟨acc2, hrun, hlen, -⟩ := executeLoop_inv cfg cof now (totalOutputsOf cfg)
      (fun _ _ => True) hroute hnofail items
      (List.replicate (totalOutputsOf cfg) []) (by simp)
      (by intro i r hmem; rw [getD_replicate_nil] at hmem; cases hmem)
    by_cases h0 : 0 < totalOutputsOf cfg
    · refine ⟨acc2, ?_, ?_⟩
      · rw [execute, hrun]
        show Except.ok (if 0 < acc2.length then acc2 else [[]]) = Except.ok acc2
        rw [if_pos (by omega : 0 < acc2.length)]
      · omega
    · refine ⟨[[]], ?_, ?_⟩
      · rw [execute, hrun]
        show Except.ok (if 0 < acc2.length then acc2 else [[]]) = Except.ok [[]]
        rw [if_neg (by omega : ¬ 0 < acc2.length)]
      · simp only [List.length_singleton]
        omega
  · intro hnil hfb
    have hT : totalOutputsOf cfg = 0 := by
      simp only [totalOutputsOf, hnil, List.length_nil, hfb]
      rfl
    constructor
    · rw [execute, hT]
      rfl
    · intro json rest hitems
      subst hitems
      have hidx : (classifyItem cfg json).idx = none := by
        rw [classifyItem, hnil]
        rfl
      have hne : ¬ (cfg.fallbackBehavior = "route_to_fallback") := by
        rw [hfb]; decide
      have hnd : ¬ (cfg.fallbackBehavior = "discard") := by
        rw [hfb]; decide
      have hpi : processItem cfg (totalOutputsOf cfg) now json =
          .fail (noMatchMsg (normalizedText cfg json)) := by
        simp only [processItem, hidx]
        rw [if_neg hne, if_neg hnd, if_pos hfb]
      rw [hT] at hpi
      constructor
      · rw [execute, hT]
        simp [executeLoop, hpi]
      · rw [execute, hT]
        simp [executeLoop, hpi, hne, pushAt]

/-- Witness for the amended C4: the duplicate-key configuration processes a
batch without error with its three channels; the empty-intent `error`
configuration succeeds on an empty batch even under continue-on-fail,
fails a one-record strict batch with that record's no-match error, and
dies with the `TypeError` under continue-on-fail. -/
theorem c4_witness :
    (∃ chs, execute c4DupCfg false "t0" [[("message", JsonValue.str "zzz")]] = .ok chs ∧
      chs.length = max (totalOutputsOf c4DupCfg) 1) ∧
    execute c4ErrEmptyCfg true "t0" [] = .ok [[]] ∧
    execute c4ErrEmptyCfg false "t0" [[("message", JsonValue.str "zzz")]] =
      .error (noMatchMsg (normalizedText c4ErrEmptyCfg [("message", JsonValue.str "zzz")])) ∧
    execute c4ErrEmptyCfg true "t0" [[("message", JsonValue.str "zzz")]] =
      .error "TypeError: undefined output channel" :=
  ⟨(c4_no_configuration_validation c4DupCfg false "t0"
      [[("message", JsonValue.str "zzz")]]).1 (by decide),
   ((c4_no_configuration_validation c4ErrEmptyCfg true "t0" []).2.2 rfl rfl).1,
   (((c4_no_configuration_validation c4ErrEmptyCfg false "t0"
      [[("message", JsonValue.str "zzz")]]).2.2 rfl rfl).2
      [("message", JsonValue.str "zzz")] [] rfl).1,
   (((c4_no_configuration_validation c4ErrEmptyCfg true "t0"
      [[("message", JsonValue.str "zzz")]]).2.2 rfl rfl).2
      [("message", JsonValue.str "zzz")] [] rfl).2⟩

/-- When the classifier reports no index it reports no key. -/
theorem classify_idx_none_key (cs : Bool) (th : ℚ) (text : String) (json : Obj)
    (L : List IntentOption) (h : (classify cs th text json L).idx = none) :
    (classify cs th text json L).key = none :=
  (classifyLoop_idx_none_key cs th text json L 0 0 h).1

/-- C1 (confirmed): under `route_to_fallback` with `K` declared intents,
`execute` always succeeds with exactly `K + 1` channels (one channel — the
fallback — when the intent list is empty); every record in channel
`i < K` is recognized as the `i`-th declared intent, and every record in
the last channel (the fallback, highest index) carries no recognized
intent. -/
theorem c1_route_to_fallback_topology (cfg : Config)
    (hfb : cfg.fallbackBehavior = "route_to_fallback")
    (cof : Bool) (now : String) (items : List Obj) :
    ∃ chs, execute cfg cof now items = .ok chs ∧
      chs.length = cfg.intentsList.length + 1 ∧
      (∀ (i : Nat) (hi : i < cfg.intentsList.length) (r : Obj), r ∈ chs.getD i [] →
        objLookup r "recognizedIntent" =
          some (.str ((cfg.intentsList.get ⟨i, hi⟩).key))) ∧
      (∀ r : Obj, r ∈ chs.getD cfg.intentsList.length [] →
        objLookup r "recognizedIntent" = some .null) := by
  have hT : totalOutputsOf cfg = cfg.intentsList.length + 1 := by
    simp [totalOutputsOf, hfb]
  have hroute : ∀ (json : Obj) (idx : Nat) (r : Obj),
      processItem cfg (totalOutputsOf cfg) now json = .route idx r →
      idx < totalOutputsOf cfg ∧
        ((∀ hi : idx < cfg.intentsList.length,
          objLookup r "recognizedIntent" =
            some (.str ((cfg.intentsList.get ⟨idx, hi⟩).key))) ∧
        (idx = cfg.intentsList.length →
          objLookup r "recognizedIntent" = some .null)) := by
    intro json idx r h
    obtain ⟨hr, hcase⟩ := processItem_route_elim cfg (totalOutputsOf cfg) now json idx r h
    rcases hcase with hsome | ⟨hnone, -, hidxT⟩
    · have hidx2 : (classify cfg.caseSensitive cfg.confidenceThreshold
          (normalizedText cfg json) json cfg.intentsList).idx = some idx := by
        rw [← classifyItem]; exact hsome
      obtain ⟨hj, -, heq⟩ := classify_idx_some _ _ _ _ _ idx hidx2
      have hcl : classifyItem cfg json =
          ⟨some idx, some ((cfg.intentsList.get ⟨idx, hj⟩).key),
            extractParameters json ((cfg.intentsList.get ⟨idx, hj⟩)).parameterOptions [],
            intentConfidence cfg.caseSensitive (normalizedText cfg json)
              (cfg.intentsList.get ⟨idx, hj⟩)⟩ := by
        rw [classifyItem]; exact heq
      refine ⟨by omega, ?_, ?_⟩
      · intro hi
        rw [hr, objLookup_enrich_recognizedIntent, hcl]
      · intro hK
        omega
    · have hkey : (classifyItem cfg json).key = none := by
        rw [classifyItem] at hnone ⊢
        exact classify_idx_none_key _ _ _ _ _ hnone
      refine ⟨by omega, ?_, ?_⟩
      · intro hi
        rw [hidxT] at hi
        omega
      · intro hK
        rw [hr, objLookup_enrich_recognizedIntent, hkey]
  have hnofail : ∀ (json : Obj) (msg : String),
      processItem cfg (totalOutputsOf cfg) now json ≠ .fail msg := by
    intro json msg h
    obtain ⟨herr, -, -⟩ := processItem_fail_elim cfg (totalOutputsOf cfg) now json msg h
    rw [hfb] at herr
    exact absurd herr (by decide)
  obtain ⟨acc2, hrun, hlen, hP⟩ := executeLoop_inv cfg cof now (totalOutputsOf cfg)
    (fun i r =>
      (∀ hi : i < cfg.intentsList.length,
        objLookup r "recognizedIntent" =
          some (.str ((cfg.intentsList.get ⟨i, hi⟩).key))) ∧
      (i = cfg.intentsList.length → objLookup r "recognizedIntent" = some .null))
    hroute hnofail items (List.replicate (totalOutputsOf cfg) []) (by simp)
    (by intro i r hmem; rw [getD_replicate_nil] at hmem; cases hmem)
  refine ⟨acc2, ?_, by omega, ?_, ?_⟩
  · rw [execute, hrun]
    show Except.ok (if 0 < acc2.length then acc2 else [[]]) = Except.ok acc2
    rw [if_pos (by omega : 0 < acc2.length)]
  · intro i hi r hmem
    exact (hP i r hmem).1 hi
  · intro r hmem
    exact (hP cfg.intentsList.length r hmem).2 rfl

/-- Configuration for the C1 witness: one intent, `route_to_fallback`. -/
def c1Cfg : Config := ⟨[c6Intent], "route_to_fallback", false, 1/2, "message"⟩

/-- Witness for C1: a matching and a non-matching record processed under
`route_to_fallback` with one declared intent. -/
theorem c1_witness :
    ∃ chs, execute c1Cfg false "t0"
        [[("message", JsonValue.str "hello")], [("message", JsonValue.str "zzz")]] =
        .ok chs ∧
      chs.length = c1Cfg.intentsList.length + 1 ∧
      (∀ (i : Nat) (hi : i < c1Cfg.intentsList.length) (r : Obj), r ∈ chs.getD i [] →
        objLookup r "recognizedIntent" =
          some (.str ((c1Cfg.intentsList.get ⟨i, hi⟩).key))) ∧
      (∀ r : Obj, r ∈ chs.getD c1Cfg.intentsList.length [] →
        objLookup r "recognizedIntent" = some .null) :=
  c1_route_to_fallback_topology c1Cfg rfl false "t0"
    [[("message", JsonValue.str "hello")], [("message", JsonValue.str "zzz")]]
